import Mathlib

/-!
Verification development for the daily-report watcher (src/index.js).

The JavaScript source is shallowly embedded: each relevant function is
translated to an executable Lean definition over explicit data.  Epoch
times are `Int` seconds; the configured time zone is a fixed offset
`tzOffset` in seconds east of UTC (the default zone, Asia/Tokyo, has no
daylight-saving transitions, so a fixed offset is exact).  JavaScript
truthiness on strings ("" is falsy) is modelled by `jsOr`; `Map` is an
association list with JS `Map.set` / `Map.get` semantics; asynchronous
Slack API calls are oracles of type `Except String _`, and the value an
invocation "posts" is an explicit list of `Post` records.
-/

namespace DailyReportWatcher

/-- JavaScript `a || b` on strings: the empty string is the only falsy string. -/
def jsOr (a b : String) : String := if a = "" then b else a

/-- Source `uniq` (line 93): `[...new Set(array)]`, i.e. deduplication keeping
the first occurrence of each element, in order. -/
def uniq (array : List String) : List String :=
  array.foldl (fun acc x => if acc.contains x then acc else acc ++ [x]) []

/-! ## Time window calculator (`getDayRangeUnix`, lines 109-133) -/

/-- Split a character list at every colon (helper for parsing "HH:mm"). -/
def splitColon : List Char → List (List Char)
  | [] => [[]]
  | c :: cs =>
    let rest := splitColon cs
    if c = ':' then [] :: rest
    else
      match rest with
      | [] => [[c]]
      | r :: rs => (c :: r) :: rs

/-- Read a non-empty all-digit character list as a decimal number. -/
def digitsToNat (l : List Char) : Option Nat :=
  if l ≠ [] && l.all Char.isDigit then
    some (l.foldl (fun n c => n * 10 + (c.toNat - '0'.toNat)) 0)
  else none

/-- Parse a cutoff string of the shape "H:MM" / "HH:MM" into hours and minutes.
The source hands the string to `dayjs.tz` for parsing; strings that do not
denote a valid time of day produce a dayjs Invalid Date (NaN arithmetic) there,
which is outside this embedding — such strings parse to `none` here. -/
def parseHHmm (s : String) : Option (Nat × Nat) :=
  match splitColon s.data with
  | [hs, ms] =>
    match digitsToNat hs, digitsToNat ms with
    | some h, some m =>
      if hs.length ≤ 2 && ms.length = 2 && h < 24 && m < 60 then some (h, m) else none
    | _, _ => none
  | _ => none

/-- Stands in for dayjs `format("YYYY-MM-DD")`: the source renders the base
day's calendar date; we render the local day number (days since the local
epoch day), an injective tag of the same calendar day. -/
def formatDay (dayNum : Int) : String := toString dayNum

/-- Result of `getDayRangeUnix` (the source also returns `now`; claims use the
other three fields). -/
structure DayRange where
  nowUnix : Int
  reportDate : String
  startUnix : Int
  endUnix : Int
  deriving DecidableEq

/-- The local day number of the base day: `dayjs().tz(TZ).add(dayOffset, "day")`,
counted in whole local days since the epoch's local day. -/
def baseDayNumber (tzOffset nowUnix dayOffset : Int) : Int :=
  (nowUnix + tzOffset).fdiv 86400 + dayOffset

/-- Local midnight of the base day (`baseDay.startOf("day")`, line 113), as
epoch seconds. -/
def windowStart (tzOffset nowUnix dayOffset : Int) : Int :=
  baseDayNumber tzOffset nowUnix dayOffset * 86400 - tzOffset

/-- The end-of-window computation of lines 115-124, given the parsed cutoff
`hh:mm` and the base day's local midnight `start`: the cutoff instant, plus
59 seconds for the sentinel string "23:59" or minus one second otherwise,
clamped up to `start` + 23:59:59 when it falls before `start`. -/
def windowEnd (cutoffTimeHHmm : String) (hh mm : Nat) (start : Int) : Int :=
  let cutoff0 : Int := start + (hh : Int) * 3600 + (mm : Int) * 60
  let cutoff1 : Int := if cutoffTimeHHmm = "23:59" then cutoff0 + 59 else cutoff0 - 1
  if cutoff1 < start then start + (23 * 3600 + 59 * 60 + 59) else cutoff1

/-- Source `getDayRangeUnix` (lines 109-133).  `baseDay = now + dayOffset`
days in the configured zone; `start` is local midnight of the base day;
the cutoff is moved back one second, except for the sentinel string "23:59"
which is extended to 23:59:59; an end before the start is clamped to the
base day at 23:59:59. -/
def getDayRangeUnix (tzOffset nowUnix : Int) (cutoffTimeHHmm : String) (dayOffset : Int) :
    Option DayRange :=
  match parseHHmm cutoffTimeHHmm with
  | none => none
  | some (hh, mm) =>
    some ⟨nowUnix, formatDay (baseDayNumber tzOffset nowUnix dayOffset),
      windowStart tzOffset nowUnix dayOffset,
      windowEnd cutoffTimeHHmm hh mm (windowStart tzOffset nowUnix dayOffset)⟩

/-! ## Submission extraction (`extractSubmitterUserId`, lines 85-91) -/

/-- A history entry; only the optional `text` field is consulted
(`message?.text || ""`). -/
structure SlackMessage where
  text : Option String
  deriving DecidableEq

/-- Character class of the source regex `[A-Z0-9]`: capital letters and digits. -/
def isMentionChar (c : Char) : Bool :=
  ('A' ≤ c && c ≤ 'Z') || ('0' ≤ c && c ≤ '9')

/-- Match the regex `<@([A-Z0-9]+)>` at the head of the character list,
returning the captured token.  Because `[A-Z0-9]` cannot match `>`, the
greedy `+` matches exactly the maximal run of mention characters, which must
be non-empty and followed by `>`. -/
def matchMentionAt : List Char → Option (List Char)
  | '<' :: '@' :: rest =>
    let tok := rest.takeWhile isMentionChar
    match rest.drop tok.length with
    | '>' :: _ => if tok.isEmpty then none else some tok
    | _ => none
  | _ => none

/-- First match of the mention regex: scan start positions left to right
(the semantics of taking `matches[0]` of `matchAll`). -/
def findFirstMention : List Char → Option (List Char)
  | [] => none
  | c :: cs =>
    match matchMentionAt (c :: cs) with
    | some tok => some tok
    | none => findFirstMention cs

/-- Source `extractSubmitterUserId` (lines 85-91): the first `<@...>` mention
token of the body, or `none` when no mention occurs. -/
def extractSubmitterUserId (message : SlackMessage) : Option String :=
  (findFirstMention (message.text.getD "").data).map (fun l => ⟨l⟩)

/-- The submitter-collection loop of `runCheck` (lines 276-280): push each
extracted id, subject to the JS truthiness test `if (uid)`. -/
def collectSubmitters (messages : List SlackMessage) : List String :=
  messages.filterMap (fun msg =>
    match extractSubmitterUserId msg with
    | some uid => if uid = "" then none else some uid
    | none => none)

/-- Modelled from the spec: the spec describes the mention token class as
"an alphanumeric identifier"; this definition follows those words (letters of
either case and digits) so that it can be compared with the source's
`[A-Z0-9]` class. -/
def isAlnumCharSpec (c : Char) : Bool :=
  ('A' ≤ c && c ≤ 'Z') || ('a' ≤ c && c ≤ 'z') || ('0' ≤ c && c ≤ '9')

/-- Modelled from the spec: matching `<@TOKEN>` with `TOKEN` a (case-blind)
alphanumeric identifier, at the head of the character list. -/
def matchMentionAtSpec : List Char → Option (List Char)
  | '<' :: '@' :: rest =>
    let tok := rest.takeWhile isAlnumCharSpec
    match rest.drop tok.length with
    | '>' :: _ => if tok.isEmpty then none else some tok
    | _ => none
  | _ => none

/-- Modelled from the spec: the first alphanumeric `<@TOKEN>` mention of a
body, under the spec's reading of "alphanumeric". -/
def findFirstMentionSpec : List Char → Option (List Char)
  | [] => none
  | c :: cs =>
    match matchMentionAtSpec (c :: cs) with
    | some tok => some tok
    | none => findFirstMentionSpec cs

/-! ## Name resolution (`buildUserIdToNameMap`, lines 141-171) -/

/-- A record of the Slack user directory.  A JS field that is absent or the
empty string is falsy either way in the `||` chains of the source, so string
fields model both cases with `""`. -/
structure SlackUser where
  id : String
  profile_display_name : String
  profile_real_name : String
  real_name : String
  userName : String
  deriving DecidableEq

/-- The name-priority chain of line 153-158:
`u.profile?.display_name || u.profile?.real_name || u.real_name || u.name || u.id`. -/
def pickName (u : SlackUser) : String :=
  jsOr u.profile_display_name
    (jsOr u.profile_real_name (jsOr u.real_name (jsOr u.userName u.id)))

/-- JS `Map.set` on an association list: replace the value of an existing key
in place, else append the new binding. -/
def mapSet : List (String × String) → String → String → List (String × String)
  | [], k, v => [(k, v)]
  | p :: ps, k, v => if p.1 = k then (k, v) :: ps else p :: mapSet ps k v

/-- JS `Map.get` on an association list. -/
def mapGet (m : List (String × String)) (k : String) : Option String :=
  (m.find? (fun p => p.1 == k)).map (fun p => p.2)

/-- Source `buildUserIdToNameMap` (lines 141-167): fold the full directory
listing (all pages concatenated) into a map, skipping entries with a falsy
`id` (`if (!u?.id) continue`). -/
def buildUserIdToNameMap (members : List SlackUser) : List (String × String) :=
  members.foldl (fun m u => if u.id = "" then m else mapSet m u.id (pickName u)) []

/-- Source `mapUserIdsToNames` (lines 169-171):
`userIds.map((uid) => idToNameMap.get(uid) || uid)`. -/
def mapUserIdsToNames (userIds : List String) (idToNameMap : List (String × String)) :
    List String :=
  userIds.map (fun uid => jsOr ((mapGet idToNameMap uid).getD "") uid)

/-! ## Reconciliation (`runCheck` lines 267-287) -/

/-- Line 287: `targetUserIds.filter((u) => !submittedSet.has(u))`.  The JS
`Set` is modelled by list membership of the (already deduplicated) list. -/
def reconcile (targetUserIds submittedUserIds : List String) : List String :=
  targetUserIds.filter (fun u => !(submittedUserIds.contains u))

/-- The pure pipeline of `runCheck` steps 1-4 (lines 267-287): exclude, scan
history, dedup, intersect with the target set, subtract.  Its result is the
`missingUserIds` list handed to the publisher. -/
def computeMissing (rawTargetUserIds excludeUserIds : List String)
    (messages : List SlackMessage) : List String :=
  let targetUserIds := rawTargetUserIds.filter (fun u => !(excludeUserIds.contains u))
  let submitters := collectSubmitters messages
  let submittedUserIds := (uniq submitters).filter (fun u => targetUserIds.contains u)
  reconcile targetUserIds submittedUserIds

/-! ## Notification publisher (`postAdminSummaryThreaded`, lines 178-230) -/

/-- One `chat.postMessage` call: target channel, optional `thread_ts`, text. -/
structure Post where
  channel : String
  threadTs : Option String
  text : String
  deriving DecidableEq

/-- Source `adminMentionText` (lines 97-99):
`ADMIN_USERGROUP_ID ? "<!subteam^" + id + ">" : ""`. -/
def adminMentionText (adminUsergroupId : String) : String :=
  if adminUsergroupId = "" then "" else "<!subteam^" ++ adminUsergroupId ++ ">"

/-- The parent-message template of lines 190-197 (a JS template literal;
embedded line breaks written as escapes). -/
def parentText (adminMention label reportDate : String) (missingCount : Nat) : String :=
  adminMention ++ "\nお疲れ様です。\n本日の" ++ label ++
    "日報の未提出者をお知らせいたします。\n欠勤/休暇者が含まれる可能性がございますので\nご確認の上各マネージャーへ連携お願い致します。\n\n日付：" ++
    reportDate ++ "\n未提出：" ++ toString missingCount

/-- The threaded reply posted when nobody is missing (line 209). -/
def noMissingText : String := "未提出者はいません 🎉"

/-- The introductory line of the first chunk reply (line 221). -/
def introLine : String := "未提出者は以下の通りです。"

/-- Structural worker for `chunksOf40`; the fuel argument only bounds the
number of loop iterations and is immaterial once it is at least the list
length (`chunksOf40Go_fuel`). -/
def chunksOf40Go : Nat → List String → List (List String)
  | _, [] => []
  | 0, _ :: _ => []
  | n + 1, x :: xs => ((x :: xs).take 40) :: chunksOf40Go n ((x :: xs).drop 40)

/-- The chunking loop of lines 214-216: `slice(i, i + 40)` for
`i = 0, 40, 80, ...`, i.e. successive blocks of 40. -/
def chunksOf40 (l : List String) : List (List String) := chunksOf40Go l.length l

/-- The texts of the chunk replies (lines 214-228): each chunk's resolved
names joined by newlines, the first chunk prefixed with the introductory
line (`i === 0` ternary of line 219-222). -/
def threadReplyTexts (missingUserIds : List String)
    (idToNameMap : List (String × String)) : List String :=
  match chunksOf40 missingUserIds with
  | [] => []
  | c :: rest =>
    (introLine ++ "\n\n" ++ String.intercalate "\n" (mapUserIdsToNames c idToNameMap))
      :: rest.map (fun ch => String.intercalate "\n" (mapUserIdsToNames ch idToNameMap))

/-- Source `postAdminSummaryThreaded` (lines 178-230), as the list of
messages it posts: one parent, then either the single "nobody missing"
reply or one reply per chunk, all threaded under the parent's timestamp
`parentTs` (the transport-provided `parentRes.ts`). -/
def postAdminSummaryThreaded (adminUsergroupId channelId label reportDate : String)
    (missingUserIds : List String) (idToNameMap : List (String × String))
    (parentTs : String) : List Post :=
  let parent : Post :=
    ⟨channelId, none,
      parentText (adminMentionText adminUsergroupId) label reportDate missingUserIds.length⟩
  if missingUserIds.length = 0 then
    [parent, ⟨channelId, some parentTs, noMissingText⟩]
  else
    parent ::
      (threadReplyTexts missingUserIds idToNameMap).map
        (fun t => ⟨channelId, some parentTs, t⟩)

/-! ## Check orchestrator (`runCheck`, lines 243-308) and boot block -/

/-- The three awaited Slack reads a check performs, in pipeline order; an
`Except.error` models a rejected promise (network/authorization failure). -/
structure ClientOracle where
  usergroupUsers : Except String (List String)
  history : Except String (List SlackMessage)
  usersList : Except String (List SlackUser)

/-- Outcome of one `runCheck` invocation: the propagated error, if any, and
the messages actually posted before the invocation ended. -/
structure CheckResult where
  err : Option String
  posts : List Post
  deriving DecidableEq

/-- Source `runCheck` (lines 243-308).  Stages run strictly in order —
window, usergroup fetch, history fetch, pure extraction/reconciliation,
directory fetch, publish — and a thrown (rejected) stage propagates out of
the function at once, so nothing is posted on failure.  `none` marks a
cutoff string outside the model's valid "HH:mm" domain (dayjs Invalid
Date in the source). -/
def runCheck (tzOffset nowUnix : Int) (adminUsergroupId : String)
    (excludeUserIds : List String) (label reportChannelId cutoffTime : String)
    (dayOffset : Int) (notifyChannelId : String) (o : ClientOracle)
    (parentTs : String) : Option CheckResult :=
  match getDayRangeUnix tzOffset nowUnix cutoffTime dayOffset with
  | none => none
  | some range =>
    match o.usergroupUsers with
    | .error e => some ⟨some e, []⟩
    | .ok rawTargetUserIds =>
      match o.history with
      | .error e => some ⟨some e, []⟩
      | .ok messages =>
        let missingUserIds := computeMissing rawTargetUserIds excludeUserIds messages
        match o.usersList with
        | .error e => some ⟨some e, []⟩
        | .ok members =>
          some ⟨none,
            postAdminSummaryThreaded adminUsergroupId
              (jsOr notifyChannelId reportChannelId) label range.reportDate
              missingUserIds (buildUserIdToNameMap members) parentTs⟩

/-- Outcome of the boot block: whether the skip warning fired, and every
message posted by the boot-test checks. -/
structure BootOutcome where
  warned : Bool
  posts : List Post
  deriving DecidableEq

/-- The `RUN_ON_BOOT` block of the main IIFE (lines 375-408): without a
configured `TEST_NOTIFY_CHANNEL` it warns and returns before any check;
otherwise it runs the OUT check and, when `REPORT_CHANNEL_IN` is set and the
OUT check did not throw, the IN check, both redirected to the test channel.
A thrown check error is caught and logged by the surrounding try/catch. -/
def bootBlock (runOnBoot : Bool) (testNotifyChannel : String) (tzOffset nowUnix : Int)
    (adminUsergroupId : String) (excludeUserIds : List String)
    (reportChannelOut cutoffTimeOut reportChannelIn cutoffTimeIn : String)
    (oOut oIn : ClientOracle) (tsOut tsIn : String) : Option BootOutcome :=
  if !runOnBoot then some ⟨false, []⟩
  else if testNotifyChannel = "" then some ⟨true, []⟩
  else
    match runCheck tzOffset nowUnix adminUsergroupId excludeUserIds "退勤(起動テスト)"
        reportChannelOut cutoffTimeOut (-1) testNotifyChannel oOut tsOut with
    | none => none
    | some r1 =>
      if r1.err.isSome then some ⟨false, r1.posts⟩
      else if reportChannelIn = "" then some ⟨false, r1.posts⟩
      else
        match runCheck tzOffset nowUnix adminUsergroupId excludeUserIds "出勤(起動テスト)"
            reportChannelIn cutoffTimeIn 0 testNotifyChannel oIn tsIn with
        | none => none
        | some r2 => some ⟨false, r1.posts ++ r2.posts⟩

/-- Substring containment at the character level, used to state what a posted
text includes. -/
def containsStr (s sub : String) : Prop :=
  ∃ u v, s.data = u ++ sub.data ++ v

/-! ## Claim C1: end of the audit window -/

/-- Unfolding lemma: on a parseable cutoff, `getDayRangeUnix` returns the
window assembled from `windowStart` and `windowEnd`. -/
theorem getDayRangeUnix_eq_some (tzOffset nowUnix : Int) (c : String) (off : Int)
    (hh mm : Nat) (hparse : parseHHmm c = some (hh, mm)) :
    getDayRangeUnix tzOffset nowUnix c off =
      some ⟨nowUnix, formatDay (baseDayNumber tzOffset nowUnix off),
        windowStart tzOffset nowUnix off,
        windowEnd c hh mm (windowStart tzOffset nowUnix off)⟩ := by
  unfold getDayRangeUnix
  rw [hparse]

/-- Definitional unfolding of `windowEnd` with its let bindings expanded. -/
theorem windowEnd_def (c : String) (hh mm : Nat) (s : Int) :
    windowEnd c hh mm s =
      (if (if c = "23:59" then s + (hh : Int) * 3600 + (mm : Int) * 60 + 59
           else s + (hh : Int) * 3600 + (mm : Int) * 60 - 1) < s
       then s + (23 * 3600 + 59 * 60 + 59)
       else (if c = "23:59" then s + (hh : Int) * 3600 + (mm : Int) * 60 + 59
             else s + (hh : Int) * 3600 + (mm : Int) * 60 - 1)) := rfl

/-- A non-sentinel cutoff later than midnight is shifted back one second and
never clamped. -/
theorem windowEnd_nonsentinel (c : String) (hh mm : Nat) (s : Int)
    (hc : ¬ c = "23:59") (hpos : 0 < hh + mm) :
    windowEnd c hh mm s = s + ((hh : Int) * 3600 + (mm : Int) * 60) - 1 := by
  rw [windowEnd_def, if_neg hc, if_neg (by omega)]
  omega

/-- The sentinel cutoff is extended 59 seconds and never clamped. -/
theorem windowEnd_sentinel (hh mm : Nat) (s : Int) :
    windowEnd "23:59" hh mm s = s + (hh : Int) * 3600 + (mm : Int) * 60 + 59 := by
  rw [windowEnd_def]
  split_ifs <;> first | omega | simp_all

/-- A non-sentinel midnight cutoff trips the clamp guard. -/
theorem windowEnd_midnight (c : String) (s : Int) (hc : ¬ c = "23:59") :
    windowEnd c 0 0 s = s + 86399 := by
  rw [windowEnd_def, if_neg hc, if_pos (by omega)]
  omega

/-- The start never exceeds the end. -/
theorem windowEnd_ge_start (c : String) (hh mm : Nat) (s : Int) :
    s ≤ windowEnd c hh mm s := by
  rw [windowEnd_def]
  split_ifs <;> omega

/-- The clamp guard of line 123: an adjusted cutoff before the start forces
the end to start + 23:59:59. -/
theorem windowEnd_clamped (c : String) (hh mm : Nat) (s : Int)
    (hlt : (if c = "23:59" then s + (hh : Int) * 3600 + (mm : Int) * 60 + 59
            else s + (hh : Int) * 3600 + (mm : Int) * 60 - 1) < s) :
    windowEnd c hh mm s = s + 86399 := by
  rw [windowEnd_def, if_pos hlt]
  omega

/-- C1 (amended): for every parseable cutoff other than the sentinel string
"23:59" that denotes a time of day strictly after midnight 00:00, the window
end is the base day's local midnight plus the cutoff's hours and minutes
minus one second; for the sentinel "23:59", and for the midnight cutoff
00:00 (where the guard of line 123 clamps), the end is the base day at
23:59:59. -/
theorem getDayRangeUnix_end_spec (tzOffset nowUnix : Int) (c : String) (off : Int)
    (hh mm : Nat) (r : DayRange)
    (hparse : parseHHmm c = some (hh, mm))
    (hrun : getDayRangeUnix tzOffset nowUnix c off = some r) :
    (c ≠ "23:59" → 0 < hh + mm →
      r.endUnix = r.startUnix + ((hh : Int) * 3600 + (mm : Int) * 60) - 1)
    ∧ (c = "23:59" → r.endUnix = r.startUnix + 86399)
    ∧ (hh = 0 → mm = 0 → r.endUnix = r.startUnix + 86399) := by
  rw [getDayRangeUnix_eq_some tzOffset nowUnix c off hh mm hparse,
    Option.some.injEq] at hrun
  have hs : r.startUnix = windowStart tzOffset nowUnix off := by rw [← hrun]
  have he : r.endUnix = windowEnd c hh mm (windowStart tzOffset nowUnix off) := by
    rw [← hrun]
  refine ⟨?_, ?_, ?_⟩
  · intro hc hpos
    rw [he, hs, windowEnd_nonsentinel c hh mm _ hc hpos]
  · intro hc
    subst hc
    have h2359 : parseHHmm "23:59" = some (23, 59) := by decide
    rw [h2359] at hparse
    have hhm : 23 = hh ∧ 59 = mm := by simpa using hparse
    obtain ⟨rfl, rfl⟩ := hhm
    rw [he, hs, windowEnd_sentinel]
    omega
  · intro h0 m0
    subst h0; subst m0
    have hc : ¬ c = "23:59" := by
      intro hceq
      subst hceq
      have h2359 : parseHHmm "23:59" = some (23, 59) := by decide
      rw [h2359] at hparse
      simp at hparse
    rw [he, hs, windowEnd_midnight c _ hc]

/-- C1 witness: a concrete run of the amended claim, cutoff "12:00" on the
epoch day in UTC, whose end is 11:59:59. -/
theorem getDayRangeUnix_end_spec_witness :
    ∃ r : DayRange, getDayRangeUnix 0 0 "12:00" 0 = some r
      ∧ r.endUnix = r.startUnix + ((12 : Int) * 3600 + (0 : Int) * 60) - 1 := by
  refine ⟨⟨0, formatDay 0, 0, 43199⟩, by decide, ?_⟩
  exact (getDayRangeUnix_end_spec 0 0 "12:00" 0 12 0 ⟨0, formatDay 0, 0, 43199⟩
    (by decide) (by decide)).1 (by decide) (by decide)

/-- C1 counterexample: for the non-sentinel cutoff "00:00" the claim as
stated predicts an end of local midnight minus one second (here, -1), but the
source's guard clamps the end to the base day at 23:59:59 (here, 86399). -/
theorem getDayRangeUnix_end_claim_fails_at_midnight :
    parseHHmm "00:00" = some (0, 0)
    ∧ (getDayRangeUnix 0 0 "00:00" 0).map (fun r => (r.startUnix, r.endUnix))
        = some (0, 86399)
    ∧ (86399 : Int) ≠ 0 + ((0 : Int) * 3600 + (0 : Int) * 60) - 1 := by
  exact ⟨by decide, by decide, by decide⟩

/-! ## Claim C5: the window invariant start ≤ end -/

/-- C5: every computed audit window satisfies start ≤ end; the start is
always the local midnight of the base day, and whenever the adjusted cutoff
precedes the start, the end is clamped to the base day at 23:59:59. -/
theorem getDayRangeUnix_start_le_end (tzOffset nowUnix : Int) (c : String) (off : Int)
    (r : DayRange) (hrun : getDayRangeUnix tzOffset nowUnix c off = some r) :
    r.startUnix ≤ r.endUnix
    ∧ r.startUnix = windowStart tzOffset nowUnix off
    ∧ (∀ hh mm : Nat, parseHHmm c = some (hh, mm) →
        (if c = "23:59" then r.startUnix + (hh : Int) * 3600 + (mm : Int) * 60 + 59
         else r.startUnix + (hh : Int) * 3600 + (mm : Int) * 60 - 1) < r.startUnix →
        r.endUnix = r.startUnix + 86399) := by
  rcases hp : parseHHmm c with _ | ⟨hh, mm⟩
  · unfold getDayRangeUnix at hrun
    rw [hp] at hrun
    exact absurd hrun (by simp)
  · rw [getDayRangeUnix_eq_some tzOffset nowUnix c off hh mm hp,
      Option.some.injEq] at hrun
    have hs : r.startUnix = windowStart tzOffset nowUnix off := by rw [← hrun]
    have he : r.endUnix = windowEnd c hh mm (windowStart tzOffset nowUnix off) := by
      rw [← hrun]
    refine ⟨?_, hs, ?_⟩
    · rw [he, hs]
      exact windowEnd_ge_start c hh mm _
    · intro hh' mm' hp' hlt
      have hhm : hh = hh' ∧ mm = mm' := by simpa using hp'
      obtain ⟨rfl, rfl⟩ := hhm
      rw [he, hs]
      rw [hs] at hlt
      exact windowEnd_clamped c hh mm _ hlt

/-- C5 witness: the invariant instantiated at a concrete clamped window
(cutoff "00:00", Asia/Tokyo offset). -/
theorem getDayRangeUnix_start_le_end_witness :
    ∃ r : DayRange, getDayRangeUnix 32400 1000 "00:00" 0 = some r
      ∧ r.startUnix ≤ r.endUnix := by
  refine ⟨⟨1000, formatDay 0, -32400, 53999⟩, by decide, ?_⟩
  exact (getDayRangeUnix_start_le_end 32400 1000 "00:00" 0
    ⟨1000, formatDay 0, -32400, 53999⟩ (by decide)).1

/-! ## Claim C3: reconciliation -/

/-- C3: reconciliation returns exactly the elements of the target sequence
that are not in the submitted set, as a subsequence of the target (preserving
its enumeration order); against the empty set it returns the target
unchanged, and against the target itself it returns nothing. -/
theorem reconcile_spec (T S : List String) :
    (∀ x, x ∈ reconcile T S ↔ (x ∈ T ∧ x ∉ S))
    ∧ (reconcile T S).Sublist T
    ∧ reconcile T [] = T
    ∧ reconcile T T = [] := by
  refine ⟨?_, ?_, ?_, ?_⟩
  · intro x
    simp [reconcile, List.mem_filter]
  · exact List.filter_sublist T
  · simp [reconcile]
  · rw [reconcile, List.filter_eq_nil_iff]
    intro a ha
    simp [ha]

/-- C3 witness: reconciliation at concrete inputs. -/
theorem reconcile_spec_witness :
    ("A" ∈ reconcile ["A", "B"] ["B"] ↔ ("A" ∈ ["A", "B"] ∧ "A" ∉ ["B"]))
    ∧ reconcile ["A", "B"] [] = ["A", "B"]
    ∧ reconcile ["A", "B"] ["A", "B"] = [] := by
  refine ⟨(reconcile_spec ["A", "B"] ["B"]).1 "A", ?_, ?_⟩
  · exact (reconcile_spec ["A", "B"] []).2.2.1
  · exact (reconcile_spec ["A", "B"] ["A", "B"]).2.2.2

/-! ## Claim C10: the missing list avoids excluded identities -/

/-- C10: every identity in the missing list handed to the publisher is an
element of the raw member list returned by the usergroup fetch and is not in
the configured exclusion set. -/
theorem computeMissing_subset_raw_not_excluded
    (rawTargetUserIds excludeUserIds : List String) (messages : List SlackMessage)
    (u : String) (hu : u ∈ computeMissing rawTargetUserIds excludeUserIds messages) :
    u ∈ rawTargetUserIds ∧ u ∉ excludeUserIds := by
  have h1 : u ∈ rawTargetUserIds.filter (fun v => !(excludeUserIds.contains v)) := by
    have := List.filter_sublist
      (l := rawTargetUserIds.filter (fun v => !(excludeUserIds.contains v)))
      (p := fun v => !((uniq (collectSubmitters messages)).filter
        (fun w => (rawTargetUserIds.filter
          (fun v' => !(excludeUserIds.contains v'))).contains w)).contains v)
    exact this.mem hu
  rw [List.mem_filter] at h1
  refine ⟨h1.1, ?_⟩
  have h2 := h1.2
  simp only [Bool.not_eq_true', List.contains_eq_any_beq, List.any_eq_false,
    beq_iff_eq] at h2
  intro hmem
  exact h2 u hmem rfl

/-- C10 witness: a concrete check in which the excluded identity C never
reaches the missing list even though C did not submit. -/
theorem computeMissing_subset_raw_not_excluded_witness :
    ("A" ∈ computeMissing ["A", "B", "C"] ["C"] [⟨some "<@B> done"⟩])
    ∧ ("A" ∈ ["A", "B", "C"] ∧ "A" ∉ ["C"])
    ∧ computeMissing ["A", "B", "C"] ["C"] [⟨some "<@B> done"⟩] = ["A"] := by
  refine ⟨by decide, ?_, by decide⟩
  exact computeMissing_subset_raw_not_excluded ["A", "B", "C"] ["C"]
    [⟨some "<@B> done"⟩] "A" (by decide)

/-! ## Claim C2: first-mention extraction -/

/-- Inversion of a successful anchored match: the captured token is a
non-empty run of mention characters. -/
theorem matchMentionAt_some (s tok : List Char) (h : matchMentionAt s = some tok) :
    tok ≠ [] ∧ ∀ ch ∈ tok, isMentionChar ch = true := by
  rw [matchMentionAt.eq_def] at h
  split at h
  · rename_i rest
    dsimp only at h
    split at h
    · split at h
      · exact absurd h (by simp)
      · rename_i hne
        obtain rfl := (Option.some.inj h).symm
        refine ⟨by simpa using hne, ?_⟩
        intro ch hch
        exact List.mem_takeWhile_imp hch
    · exact absurd h (by simp)
  · exact absurd h (by simp)

/-- A body scan returns `none` exactly when no start position of the body
matches the mention pattern. -/
theorem findFirstMention_none_iff (s : List Char) :
    findFirstMention s = none ↔ ∀ i, matchMentionAt (s.drop i) = none := by
  induction s with
  | nil =>
    constructor
    · intro _ i
      rw [List.drop_nil]
      rfl
    · intro _
      rfl
  | cons c cs ih =>
    cases hm : matchMentionAt (c :: cs) with
    | some tok =>
      simp only [findFirstMention, hm]
      constructor
      · intro h
        exact absurd h (by simp)
      · intro hall
        have h0 := hall 0
        rw [List.drop_zero, hm] at h0
        exact absurd h0 (by simp)
    | none =>
      simp only [findFirstMention, hm]
      constructor
      · intro h i
        cases i with
        | zero => simpa using hm
        | succ j => rw [List.drop_succ_cons]; exact ih.mp h j
      · intro hall
        apply ih.mpr
        intro j
        have hj := hall (j + 1)
        rwa [List.drop_succ_cons] at hj


/-- A body scan returns the token of the leftmost matching start position:
every earlier position fails to match. -/
theorem findFirstMention_first (s tok : List Char) (h : findFirstMention s = some tok) :
    ∃ i, matchMentionAt (s.drop i) = some tok
      ∧ ∀ j, j < i → matchMentionAt (s.drop j) = none := by
  induction s with
  | nil => exact absurd h (by simp [findFirstMention])
  | cons c cs ih =>
    cases hm : matchMentionAt (c :: cs) with
    | some t =>
      simp only [findFirstMention, hm] at h
      obtain rfl := Option.some.inj h
      exact ⟨0, by simpa using hm, fun j hj => absurd hj (Nat.not_lt_zero j)⟩
    | none =>
      simp only [findFirstMention, hm] at h
      obtain ⟨i, hi, hlt⟩ := ih h
      refine ⟨i + 1, by simpa [List.drop_succ_cons] using hi, ?_⟩
      intro j hj
      cases j with
      | zero => simpa using hm
      | succ j' => rw [List.drop_succ_cons]; exact hlt j' (by omega)

/-- C2 (amended): the extracted submitter is the token of the FIRST position
of the body matching the mention pattern `<@TOKEN>` with `TOKEN` a non-empty
run of uppercase-alphanumeric characters (capital letters and digits, the
source's `[A-Z0-9]+`); a body with no such mention yields no submitter, and
such an entry contributes nothing to the collected submitter list. -/
theorem extractSubmitterUserId_spec (msg : SlackMessage) :
    (extractSubmitterUserId msg = none ↔
      ∀ i, matchMentionAt ((msg.text.getD "").data.drop i) = none)
    ∧ (∀ tok : String, extractSubmitterUserId msg = some tok →
        (tok.data ≠ [] ∧ ∀ ch ∈ tok.data, isMentionChar ch = true)
        ∧ ∃ i, matchMentionAt ((msg.text.getD "").data.drop i) = some tok.data
            ∧ ∀ j, j < i → matchMentionAt ((msg.text.getD "").data.drop j) = none)
    ∧ extractSubmitterUserId ⟨some "<@U111> submitted for <@U222>"⟩ = some "U111"
    ∧ (extractSubmitterUserId msg = none →
        ∀ pre post, collectSubmitters (pre ++ msg :: post) = collectSubmitters (pre ++ post)) := by
  refine ⟨?_, ?_, by decide, ?_⟩
  · rw [extractSubmitterUserId, Option.map_eq_none']
    exact findFirstMention_none_iff ((msg.text.getD "").data)
  · intro tok htok
    rw [extractSubmitterUserId, Option.map_eq_some'] at htok
    obtain ⟨l, hl, rfl⟩ := htok
    have hfirst := findFirstMention_first _ _ hl
    obtain ⟨i, hi, hlt⟩ := hfirst
    exact ⟨matchMentionAt_some _ _ hi, ⟨i, hi, hlt⟩⟩
  · intro hnone pre post
    unfold collectSubmitters
    rw [List.filterMap_append, List.filterMap_append, List.filterMap_cons, hnone]

/-- C2 witness: the spec's example body, whose first mention wins, and a
mention-free body, which contributes nothing. -/
theorem extractSubmitterUserId_spec_witness :
    extractSubmitterUserId ⟨some "<@U111> submitted for <@U222>"⟩ = some "U111"
    ∧ collectSubmitters [⟨some "<@U111> ok"⟩, ⟨some "no mention"⟩] = ["U111"] := by
  refine ⟨(extractSubmitterUserId_spec ⟨some "x"⟩).2.2.1, ?_⟩
  have h := (extractSubmitterUserId_spec ⟨some "no mention"⟩).2.2.2 (by decide)
    [⟨some "<@U111> ok"⟩] ([] : List SlackMessage)
  exact h.trans (by decide)

/-- C2 counterexample: under the claim's literal token class ("alphanumeric
identifier", i.e. letters of either case and digits), the first mention of
the body below is `<@ab>`, yet the source's `[A-Z0-9]` class skips it and
extracts `U1`, so the claim as stated fails on this body. -/
theorem extractSubmitterUserId_claim_fails_on_lowercase :
    findFirstMentionSpec ("<@ab> submitted for <@U1>".data) = some "ab".data
    ∧ extractSubmitterUserId ⟨some "<@ab> submitted for <@U1>"⟩ = some "U1"
    ∧ ("U1" : String) ≠ "ab" := by
  exact ⟨by decide, by decide, by decide⟩

/-! ## Claim C4: chunked threaded replies -/

/-- The fuel of `chunksOf40Go` is immaterial once it reaches the list length. -/
theorem chunksOf40Go_fuel (n : Nat) :
    ∀ (m : Nat) (l : List String), l.length ≤ n → l.length ≤ m →
      chunksOf40Go n l = chunksOf40Go m l := by
  induction n with
  | zero =>
    intro m l hn _
    have : l = [] := List.eq_nil_of_length_eq_zero (by omega)
    subst this
    cases m <;> rfl
  | succ n ih =>
    intro m l hn hm
    cases l with
    | nil => cases m <;> rfl
    | cons x xs =>
      cases m with
      | zero => exact absurd hm (by simp)
      | succ m =>
        simp only [chunksOf40Go]
        rw [ih m ((x :: xs).drop 40)
          (by simp only [List.length_drop, List.length_cons] at hn ⊢; omega)
          (by simp only [List.length_drop, List.length_cons] at hm ⊢; omega)]

/-- Spilled-fuel form of the recursive call of the chunking loop. -/
theorem chunksOf40Go_spill (x : String) (xs : List String) :
    chunksOf40Go xs.length ((x :: xs).drop 40) = chunksOf40 ((x :: xs).drop 40) := by
  exact chunksOf40Go_fuel xs.length ((x :: xs).drop 40).length ((x :: xs).drop 40)
    (by simp only [List.length_drop, List.length_cons]; omega) (le_refl _)

/-- One unfolding of the chunking loop on a non-empty list. -/
theorem chunksOf40_ne_nil (l : List String) (h : l ≠ []) :
    chunksOf40 l = l.take 40 :: chunksOf40 (l.drop 40) := by
  cases l with
  | nil => exact absurd rfl h
  | cons x xs =>
    show chunksOf40Go (xs.length + 1) (x :: xs) = _
    simp only [chunksOf40Go]
    rw [chunksOf40Go_spill]

/-- The chunking is empty only for the empty list. -/
theorem chunksOf40_eq_nil_iff (l : List String) : chunksOf40 l = [] ↔ l = [] := by
  constructor
  · intro h
    by_contra hne
    rw [chunksOf40_ne_nil l hne] at h
    exact absurd h (by simp)
  · intro h
    subst h
    rfl

/-- Concatenating the chunks restores the original list. -/
theorem chunksOf40_flatten (n : Nat) :
    ∀ l : List String, l.length ≤ n → (chunksOf40 l).flatten = l := by
  induction n with
  | zero =>
    intro l hn
    have : l = [] := List.eq_nil_of_length_eq_zero (by omega)
    subst this
    rfl
  | succ n ih =>
    intro l hn
    cases l with
    | nil => rfl
    | cons x xs =>
      rw [chunksOf40_ne_nil (x :: xs) (by simp), List.flatten_cons,
        ih ((x :: xs).drop 40)
          (by simp only [List.length_drop, List.length_cons] at hn ⊢; omega),
        List.take_append_drop]

/-- Every chunk is non-empty and holds at most 40 identities. -/
theorem chunksOf40_size (n : Nat) :
    ∀ l : List String, l.length ≤ n →
      ∀ c ∈ chunksOf40 l, c ≠ [] ∧ c.length ≤ 40 := by
  induction n with
  | zero =>
    intro l hn c hc
    have : l = [] := List.eq_nil_of_length_eq_zero (by omega)
    subst this
    exact absurd hc (by simp [chunksOf40, chunksOf40Go])
  | succ n ih =>
    intro l hn c hc
    cases l with
    | nil => exact absurd hc (by simp [chunksOf40, chunksOf40Go])
    | cons x xs =>
      rw [chunksOf40_ne_nil (x :: xs) (by simp), List.mem_cons] at hc
      rcases hc with rfl | hc
      · constructor
        · simp [List.take]
        · simp
      · exact ih ((x :: xs).drop 40)
          (by simp only [List.length_drop, List.length_cons] at hn ⊢; omega) c hc

/-- Every chunk except possibly the last holds exactly 40 identities. -/
theorem chunksOf40_dropLast (n : Nat) :
    ∀ l : List String, l.length ≤ n →
      ∀ c ∈ (chunksOf40 l).dropLast, c.length = 40 := by
  induction n with
  | zero =>
    intro l hn c hc
    have : l = [] := List.eq_nil_of_length_eq_zero (by omega)
    subst this
    exact absurd hc (by simp [chunksOf40, chunksOf40Go])
  | succ n ih =>
    intro l hn c hc
    cases l with
    | nil => exact absurd hc (by simp [chunksOf40, chunksOf40Go])
    | cons x xs =>
      rw [chunksOf40_ne_nil (x :: xs) (by simp)] at hc
      by_cases hrest : chunksOf40 ((x :: xs).drop 40) = []
      · rw [hrest] at hc
        exact absurd hc (by simp)
      · rw [List.dropLast_cons_of_ne_nil hrest, List.mem_cons] at hc
        rcases hc with rfl | hc
        · have hd : (x :: xs).drop 40 ≠ [] := by
            intro hdrop
            exact hrest (by rw [hdrop]; rfl)
          have hpos := List.length_pos.mpr hd
          rw [List.length_drop] at hpos
          rw [List.length_take]
          simp only [List.length_cons] at hpos ⊢
          omega
        · exact ih ((x :: xs).drop 40)
            (by simp only [List.length_drop, List.length_cons] at hn ⊢; omega) c hc

/-- C4: when nobody is missing, the publisher posts exactly one threaded
reply (the no-outstanding message) and nothing more; otherwise the missing
list is partitioned into chunks of 40 (each chunk non-empty, at most 40,
all-but-last exactly 40, concatenating back to the missing list in order)
and exactly one threaded reply is posted per chunk in order, each carrying
the chunk's resolved display names separated by newlines, with the
introductory line only on the first; a missing list of length 85 yields
exactly 3 chunk replies of sizes 40, 40, 5. -/
theorem postAdminSummaryThreaded_replies (adminUsergroupId channelId label reportDate : String)
    (missingUserIds : List String) (idToNameMap : List (String × String)) (parentTs : String) :
    (missingUserIds = [] →
      (postAdminSummaryThreaded adminUsergroupId channelId label reportDate
        missingUserIds idToNameMap parentTs).tail = [⟨channelId, some parentTs, noMissingText⟩])
    ∧ (missingUserIds ≠ [] →
        ∃ c rest, chunksOf40 missingUserIds = c :: rest
          ∧ (postAdminSummaryThreaded adminUsergroupId channelId label reportDate
              missingUserIds idToNameMap parentTs).tail
            = ⟨channelId, some parentTs,
                introLine ++ "\n\n" ++ String.intercalate "\n" (mapUserIdsToNames c idToNameMap)⟩
              :: rest.map (fun ch =>
                  ⟨channelId, some parentTs,
                    String.intercalate "\n" (mapUserIdsToNames ch idToNameMap)⟩))
    ∧ (chunksOf40 missingUserIds).flatten = missingUserIds
    ∧ (∀ c ∈ chunksOf40 missingUserIds, c ≠ [] ∧ c.length ≤ 40)
    ∧ (∀ c ∈ (chunksOf40 missingUserIds).dropLast, c.length = 40)
    ∧ (missingUserIds.length = 85 →
        (chunksOf40 missingUserIds).map List.length = [40, 40, 5]) := by
  refine ⟨?_, ?_, chunksOf40_flatten missingUserIds.length missingUserIds (le_refl _),
    chunksOf40_size missingUserIds.length missingUserIds (le_refl _),
    chunksOf40_dropLast missingUserIds.length missingUserIds (le_refl _), ?_⟩
  · intro h
    subst h
    rfl
  · intro hne
    refine ⟨missingUserIds.take 40, chunksOf40 (missingUserIds.drop 40),
      chunksOf40_ne_nil missingUserIds hne, ?_⟩
    unfold postAdminSummaryThreaded
    rw [if_neg (by simpa [List.length_eq_zero] using hne)]
    unfold threadReplyTexts
    rw [chunksOf40_ne_nil missingUserIds hne]
    simp
  · intro hlen
    have h1 : missingUserIds ≠ [] := by
      intro h
      rw [h] at hlen
      simp at hlen
    have h2 : missingUserIds.drop 40 ≠ [] := by
      intro h
      have := congrArg List.length h
      simp [hlen] at this
    have h3 : (missingUserIds.drop 40).drop 40 ≠ [] := by
      intro h
      have := congrArg List.length h
      simp [hlen] at this
    have h4 : ((missingUserIds.drop 40).drop 40).drop 40 = [] := by
      apply List.eq_nil_of_length_eq_zero
      simp [hlen]
    rw [chunksOf40_ne_nil missingUserIds h1,
      chunksOf40_ne_nil (missingUserIds.drop 40) h2,
      chunksOf40_ne_nil ((missingUserIds.drop 40).drop 40) h3,
      h4, show chunksOf40 ([] : List String) = [] from rfl]
    simp [List.length_take, hlen]

/-- C4 witness: a concrete missing list of length 85 produces chunk replies
of sizes 40, 40, 5. -/
theorem postAdminSummaryThreaded_replies_witness :
    (chunksOf40 (List.replicate 85 "U")).map List.length = [40, 40, 5] := by
  have h := postAdminSummaryThreaded_replies "" "C" "L" "D" (List.replicate 85 "U") [] "1"
  exact h.2.2.2.2.2 (by simp)

/-! ## Claim C6: the parent message -/

/-- A string contains itself. -/
theorem containsStr_refl (s : String) : containsStr s s :=
  ⟨[], [], by simp⟩

/-- Containment is preserved by appending on the right. -/
theorem containsStr_append_right (s t sub : String) (h : containsStr s sub) :
    containsStr (s ++ t) sub := by
  obtain ⟨u, v, hv⟩ := h
  exact ⟨u, v ++ t.data, by simp [hv]⟩

/-- Containment is preserved by appending on the left. -/
theorem containsStr_append_left (s t sub : String) (h : containsStr t sub) :
    containsStr (s ++ t) sub := by
  obtain ⟨u, v, hv⟩ := h
  exact ⟨s.data ++ u, v, by simp [hv]⟩

/-- The head of every publish call is the parent message. -/
theorem postAdminSummaryThreaded_head (adminUsergroupId channelId label reportDate : String)
    (missingUserIds : List String) (idToNameMap : List (String × String)) (parentTs : String) :
    (postAdminSummaryThreaded adminUsergroupId channelId label reportDate
      missingUserIds idToNameMap parentTs).head?.map Post.text
    = some (parentText (adminMentionText adminUsergroupId) label reportDate
        missingUserIds.length) := by
  simp only [postAdminSummaryThreaded]
  split <;> rfl

/-- C6: every publish call posts exactly one parent (unthreaded) message, at
the head of the call sequence, and its text contains the administrative
mention `<!subteam^...>` exactly when one is configured (the mention prefix
degrades to the empty string otherwise, without failing), together with the
report date and the missing count; the parent text is a function of the
missing count alone, so it never lists individual identities. -/
theorem postAdminSummaryThreaded_parent (adminUsergroupId channelId label reportDate : String)
    (missingUserIds : List String) (idToNameMap : List (String × String)) (parentTs : String) :
    (∃ tail,
      postAdminSummaryThreaded adminUsergroupId channelId label reportDate
        missingUserIds idToNameMap parentTs
      = ⟨channelId, none, parentText (adminMentionText adminUsergroupId) label reportDate
          missingUserIds.length⟩ :: tail
      ∧ ∀ p ∈ tail, p.threadTs = some parentTs)
    ∧ ((postAdminSummaryThreaded adminUsergroupId channelId label reportDate
        missingUserIds idToNameMap parentTs).filter (fun p => p.threadTs.isNone)).length = 1
    ∧ containsStr (parentText (adminMentionText adminUsergroupId) label reportDate
        missingUserIds.length) reportDate
    ∧ containsStr (parentText (adminMentionText adminUsergroupId) label reportDate
        missingUserIds.length) (toString missingUserIds.length)
    ∧ (adminUsergroupId ≠ "" →
        containsStr (parentText (adminMentionText adminUsergroupId) label reportDate
          missingUserIds.length) ("<!subteam^" ++ adminUsergroupId ++ ">"))
    ∧ adminMentionText "" = ""
    ∧ (∀ missing2 : List String, missing2.length = missingUserIds.length →
        (postAdminSummaryThreaded adminUsergroupId channelId label reportDate
          missing2 idToNameMap parentTs).head?.map Post.text
        = (postAdminSummaryThreaded adminUsergroupId channelId label reportDate
            missingUserIds idToNameMap parentTs).head?.map Post.text) := by
  have hmain : ∃ tail,
      postAdminSummaryThreaded adminUsergroupId channelId label reportDate
        missingUserIds idToNameMap parentTs
      = ⟨channelId, none, parentText (adminMentionText adminUsergroupId) label reportDate
          missingUserIds.length⟩ :: tail
      ∧ ∀ p ∈ tail, p.threadTs = some parentTs := by
    simp only [postAdminSummaryThreaded]
    split
    · exact ⟨[⟨channelId, some parentTs, noMissingText⟩], rfl, by simp⟩
    · refine ⟨(threadReplyTexts missingUserIds idToNameMap).map
        (fun t => ⟨channelId, some parentTs, t⟩), rfl, ?_⟩
      intro p hp
      rw [List.mem_map] at hp
      obtain ⟨t, _, rfl⟩ := hp
      rfl
  obtain ⟨tail, hpost, htail⟩ := hmain
  refine ⟨⟨tail, hpost, htail⟩, ?_, ?_, ?_, ?_, rfl, ?_⟩
  · have hft : tail.filter (fun p => p.threadTs.isNone) = [] := by
      rw [List.filter_eq_nil_iff]
      intro p hp
      rw [htail p hp]
      simp
    rw [hpost]
    simp [List.filter_cons, hft]
  · unfold parentText
    exact containsStr_append_right _ _ _ (containsStr_append_right _ _ _
      (containsStr_append_left _ _ _ (containsStr_refl reportDate)))
  · unfold parentText
    exact containsStr_append_left _ _ _ (containsStr_refl _)
  · intro hadmin
    unfold parentText
    have hm : adminMentionText adminUsergroupId = "<!subteam^" ++ adminUsergroupId ++ ">" := by
      unfold adminMentionText
      rw [if_neg hadmin]
    rw [hm]
    exact containsStr_append_right _ _ _ (containsStr_append_right _ _ _
      (containsStr_append_right _ _ _ (containsStr_append_right _ _ _
        (containsStr_append_right _ _ _ (containsStr_append_right _ _ _
          (containsStr_refl _))))))
  · intro missing2 h2
    rw [postAdminSummaryThreaded_head, postAdminSummaryThreaded_head, h2]

/-- C6 witness: a concrete publish call with a configured admin usergroup:
the parent text contains the mention, the date, and the count. -/
theorem postAdminSummaryThreaded_parent_witness :
    containsStr (parentText (adminMentionText "S777") "出勤" "2025-01-02" 2)
      ("<!subteam^" ++ "S777" ++ ">")
    ∧ containsStr (parentText (adminMentionText "S777") "出勤" "2025-01-02" 2) "2025-01-02"
    ∧ ((postAdminSummaryThreaded "S777" "C1" "出勤" "2025-01-02" ["U1", "U2"] [] "9"
        ).filter (fun p => p.threadTs.isNone)).length = 1 := by
  have h := postAdminSummaryThreaded_parent "S777" "C1" "出勤" "2025-01-02" ["U1", "U2"] [] "9"
  exact ⟨h.2.2.2.2.1 (by decide), h.2.2.1, h.2.1⟩

/-! ## Claim C7: the name map -/

/-- Lookup after a `Map.set`: the set key reads back the new value, every
other key is untouched. -/
theorem mapGet_mapSet (m : List (String × String)) (k v k' : String) :
    mapGet (mapSet m k v) k' = if k' = k then some v else mapGet m k' := by
  induction m with
  | nil =>
    by_cases h : k' = k
    · subst h
      simp [mapSet, mapGet]
    · rw [if_neg h]
      simp only [mapSet, mapGet]
      rw [List.find?_cons_of_neg _ (by simp; exact fun hh => h hh.symm)]
  | cons p ps ih =>
    by_cases hpk : p.1 = k
    · by_cases h : k' = k
      · subst h
        simp only [mapSet, if_pos hpk, mapGet]
        rw [List.find?_cons_of_pos _ (by simp)]
        simp
      · rw [if_neg h]
        simp only [mapSet, if_pos hpk, mapGet]
        rw [List.find?_cons_of_neg _ (by simp; exact fun hh => h hh.symm),
          List.find?_cons_of_neg _ (by simp; exact fun hh => h (hh.symm.trans hpk))]
    · by_cases hp' : p.1 = k'
      · have hkk : ¬ k' = k := fun hh => hpk (hp'.trans hh)
        rw [if_neg hkk]
        simp only [mapSet, if_neg hpk, mapGet]
        rw [List.find?_cons_of_pos _ (by simp [hp']),
          List.find?_cons_of_pos _ (by simp [hp'])]
      · simp only [mapSet, if_neg hpk, mapGet]
        rw [List.find?_cons_of_neg _ (by simp [hp']),
          List.find?_cons_of_neg _ (by simp [hp'])]
        simp only [mapGet] at ih
        exact ih

/-- The priority chain never produces an empty name for an entry with an id. -/
theorem pickName_ne_empty (u : SlackUser) (h : u.id ≠ "") : pickName u ≠ "" := by
  unfold pickName jsOr
  split_ifs <;> simp_all

/-- Every value stored by the directory fold is a non-empty name. -/
theorem build_values_ne_empty (members : List SlackUser) :
    ∀ (init : List (String × String)),
      (∀ k v, mapGet init k = some v → v ≠ "") →
      ∀ k v, mapGet (members.foldl
          (fun m u => if u.id = "" then m else mapSet m u.id (pickName u)) init) k = some v →
        v ≠ "" := by
  induction members with
  | nil =>
    intro init hinit k v h
    exact hinit k v h
  | cons u us ih =>
    intro init hinit k v h
    rw [List.foldl_cons] at h
    refine ih _ ?_ k v h
    intro k' v' h'
    by_cases hu : u.id = ""
    · rw [if_pos hu] at h'
      exact hinit k' v' h'
    · rw [if_neg hu, mapGet_mapSet] at h'
      split at h'
      · have : pickName u = v' := Option.some.inj h'
        rw [← this]
        exact pickName_ne_empty u hu
      · exact hinit k' v' h'

/-- A key present in the accumulator stays present through the fold. -/
theorem build_keeps_key (members : List SlackUser) :
    ∀ (init : List (String × String)) (k v : String),
      mapGet init k = some v →
      ∃ v', mapGet (members.foldl
          (fun m u => if u.id = "" then m else mapSet m u.id (pickName u)) init) k = some v' := by
  induction members with
  | nil =>
    intro init k v h
    exact ⟨v, h⟩
  | cons u us ih =>
    intro init k v h
    rw [List.foldl_cons]
    by_cases hu : u.id = ""
    · rw [if_pos hu]
      exact ih init k v h
    · rw [if_neg hu]
      by_cases hk : k = u.id
      · exact ih _ k (pickName u) (by rw [mapGet_mapSet, if_pos hk])
      · exact ih _ k v (by rw [mapGet_mapSet, if_neg hk]; exact h)

/-- Every listed entry with an id ends up with a binding in the fold. -/
theorem build_total (members : List SlackUser) :
    ∀ (init : List (String × String)) (u : SlackUser), u ∈ members → u.id ≠ "" →
      ∃ v, mapGet (members.foldl
          (fun m u => if u.id = "" then m else mapSet m u.id (pickName u)) init) u.id = some v := by
  induction members with
  | nil =>
    intro init u hu
    exact absurd hu (by simp)
  | cons w ws ih =>
    intro init u hu hid
    rw [List.foldl_cons]
    rcases List.mem_cons.mp hu with rfl | hmem
    · rw [if_neg hid]
      exact build_keeps_key ws _ u.id (pickName u) (by rw [mapGet_mapSet, if_pos rfl])
    · exact ih _ u hmem hid

/-- C7: the directory map is total over entries with an id and assigns each a
display name chosen by the priority chain (configured display name, else
real name, else the legacy real-name field, else the handle, else the raw
id), so every mapped name is non-empty; resolving an identity absent from
the map falls back to the raw identity string, never failing. -/
theorem buildUserIdToNameMap_spec :
    (∀ (members : List SlackUser) (k v : String),
      mapGet (buildUserIdToNameMap members) k = some v → v ≠ "")
    ∧ (∀ (members : List SlackUser) (u : SlackUser), u ∈ members → u.id ≠ "" →
        ∃ v, mapGet (buildUserIdToNameMap members) u.id = some v)
    ∧ (∀ u : SlackUser,
        (u.profile_display_name ≠ "" → pickName u = u.profile_display_name)
        ∧ (u.profile_display_name = "" → u.profile_real_name ≠ "" →
            pickName u = u.profile_real_name)
        ∧ (u.profile_display_name = "" → u.profile_real_name = "" → u.real_name ≠ "" →
            pickName u = u.real_name)
        ∧ (u.profile_display_name = "" → u.profile_real_name = "" → u.real_name = "" →
            u.userName ≠ "" → pickName u = u.userName)
        ∧ (u.profile_display_name = "" → u.profile_real_name = "" → u.real_name = "" →
            u.userName = "" → pickName u = u.id))
    ∧ (∀ (m : List (String × String)) (uid : String),
        mapGet m uid = none → mapUserIdsToNames [uid] m = [uid]) := by
  refine ⟨?_, ?_, ?_, ?_⟩
  · intro members k v h
    refine build_values_ne_empty members [] ?_ k v h
    intro k' v' h'
    simp [mapGet] at h'
  · intro members u hu hid
    exact build_total members [] u hu hid
  · intro u
    refine ⟨?_, ?_, ?_, ?_, ?_⟩ <;>
      · intros
        simp_all [pickName, jsOr]
  · intro m uid h
    simp [mapUserIdsToNames, h, jsOr]

/-- C7 witness: a concrete directory where the display name is blank, so the
real-name field wins; an unknown identity resolves to itself. -/
theorem buildUserIdToNameMap_spec_witness :
    mapGet (buildUserIdToNameMap [⟨"U1", "", "Real", "", "handle"⟩]) "U1" = some "Real"
    ∧ ("Real" : String) ≠ ""
    ∧ mapUserIdsToNames ["UX"] (buildUserIdToNameMap [⟨"U1", "", "Real", "", "handle"⟩])
        = ["UX"] := by
  refine ⟨by decide, ?_, ?_⟩
  · exact buildUserIdToNameMap_spec.1 [⟨"U1", "", "Real", "", "handle"⟩] "U1" "Real" (by decide)
  · exact buildUserIdToNameMap_spec.2.2.2
      (buildUserIdToNameMap [⟨"U1", "", "Real", "", "handle"⟩]) "UX" (by decide)

/-! ## Claim C8: pipeline failures abort without posting -/

/-- C8: once the window is computed, a rejected usergroup fetch, history
fetch, or directory fetch makes the invocation return that error with an
empty post list — no partial notification is ever sent.  (Window
computation and extraction are pure and cannot reject; posting is the final
stage.) -/
theorem runCheck_abort (tzOffset nowUnix : Int) (adminUsergroupId : String)
    (excludeUserIds : List String) (label reportChannelId cutoffTime : String)
    (dayOffset : Int) (notifyChannelId : String) (o : ClientOracle) (parentTs : String)
    (range : DayRange)
    (hwindow : getDayRangeUnix tzOffset nowUnix cutoffTime dayOffset = some range) :
    (∀ e, o.usergroupUsers = .error e →
      runCheck tzOffset nowUnix adminUsergroupId excludeUserIds label reportChannelId
        cutoffTime dayOffset notifyChannelId o parentTs = some ⟨some e, []⟩)
    ∧ (∀ e raw, o.usergroupUsers = .ok raw → o.history = .error e →
        runCheck tzOffset nowUnix adminUsergroupId excludeUserIds label reportChannelId
          cutoffTime dayOffset notifyChannelId o parentTs = some ⟨some e, []⟩)
    ∧ (∀ e raw msgs, o.usergroupUsers = .ok raw → o.history = .ok msgs →
        o.usersList = .error e →
        runCheck tzOffset nowUnix adminUsergroupId excludeUserIds label reportChannelId
          cutoffTime dayOffset notifyChannelId o parentTs = some ⟨some e, []⟩) := by
  refine ⟨?_, ?_, ?_⟩
  · intro e h1
    simp only [runCheck, hwindow, h1]
  · intro e raw h1 h2
    simp only [runCheck, hwindow, h1, h2]
  · intro e raw msgs h1 h2 h3
    simp only [runCheck, hwindow, h1, h2, h3]

/-- C8 witness: a concrete invocation whose usergroup fetch rejects posts
nothing and surfaces the error. -/
theorem runCheck_abort_witness :
    runCheck 0 0 "" [] "L" "C" "12:00" 0 "" ⟨.error "boom", .ok [], .ok []⟩ "1"
      = some ⟨some "boom", []⟩ := by
  exact (runCheck_abort 0 0 "" [] "L" "C" "12:00" 0 "" ⟨.error "boom", .ok [], .ok []⟩ "1"
    ⟨0, formatDay 0, 0, 43199⟩ (by decide)).1 "boom" rfl

/-! ## Claim C9: the boot-test block -/

/-- Every message of a publish call goes to the channel the call was given. -/
theorem postAdminSummaryThreaded_channel (adminUsergroupId channelId label reportDate : String)
    (missingUserIds : List String) (idToNameMap : List (String × String)) (parentTs : String) :
    ∀ p ∈ postAdminSummaryThreaded adminUsergroupId channelId label reportDate
      missingUserIds idToNameMap parentTs, p.channel = channelId := by
  intro p hp
  simp only [postAdminSummaryThreaded] at hp
  split at hp
  · simp only [List.mem_cons, List.mem_singleton] at hp
    rcases hp with rfl | rfl | h
    · rfl
    · rfl
    · exact absurd h (by simp)
  · rcases List.mem_cons.mp hp with rfl | hp'
    · rfl
    · rw [List.mem_map] at hp'
      obtain ⟨t, _, rfl⟩ := hp'
      rfl

/-- JavaScript `a || b` keeps a non-empty left operand. -/
theorem jsOr_of_ne (a b : String) (h : a ≠ "") : jsOr a b = a := by
  unfold jsOr
  rw [if_neg h]

/-- Every message a check invocation posts goes to
`notifyChannelId || reportChannelId`. -/
theorem runCheck_posts_channel (tzOffset nowUnix : Int) (adminUsergroupId : String)
    (excludeUserIds : List String) (label reportChannelId cutoffTime : String)
    (dayOffset : Int) (notifyChannelId : String) (o : ClientOracle) (parentTs : String)
    (r : CheckResult)
    (h : runCheck tzOffset nowUnix adminUsergroupId excludeUserIds label reportChannelId
      cutoffTime dayOffset notifyChannelId o parentTs = some r) :
    ∀ p ∈ r.posts, p.channel = jsOr notifyChannelId reportChannelId := by
  unfold runCheck at h
  split at h
  · exact absurd h (by simp)
  · split at h
    · intro p hp
      rw [← Option.some.inj h] at hp
      exact absurd hp (by simp)
    · split at h
      · intro p hp
        rw [← Option.some.inj h] at hp
        exact absurd hp (by simp)
      · split at h
        · intro p hp
          rw [← Option.some.inj h] at hp
          exact absurd hp (by simp)
        · intro p hp
          rw [← Option.some.inj h] at hp
          exact postAdminSummaryThreaded_channel _ _ _ _ _ _ _ p hp

/-- C9: with boot mode on but no test destination configured, the boot block
warns and runs no check, so nothing is posted; with a test destination
configured, every message the boot checks post goes to the test channel,
never to the report channels. -/
theorem bootBlock_spec :
    (∀ (tzOffset nowUnix : Int) (adminUsergroupId : String) (excludeUserIds : List String)
        (reportChannelOut cutoffTimeOut reportChannelIn cutoffTimeIn : String)
        (oOut oIn : ClientOracle) (tsOut tsIn : String),
      bootBlock true "" tzOffset nowUnix adminUsergroupId excludeUserIds
        reportChannelOut cutoffTimeOut reportChannelIn cutoffTimeIn oOut oIn tsOut tsIn
        = some ⟨true, []⟩)
    ∧ (∀ (testNotifyChannel : String) (tzOffset nowUnix : Int) (adminUsergroupId : String)
        (excludeUserIds : List String)
        (reportChannelOut cutoffTimeOut reportChannelIn cutoffTimeIn : String)
        (oOut oIn : ClientOracle) (tsOut tsIn : String) (out : BootOutcome),
      testNotifyChannel ≠ "" →
      bootBlock true testNotifyChannel tzOffset nowUnix adminUsergroupId excludeUserIds
        reportChannelOut cutoffTimeOut reportChannelIn cutoffTimeIn oOut oIn tsOut tsIn
        = some out →
      ∀ p ∈ out.posts, p.channel = testNotifyChannel) := by
  constructor
  · intros
    rfl
  · intro testCh tz now adminId excl chOut coOut chIn coIn oOut oIn tsOut tsIn out htest hb
    unfold bootBlock at hb
    rw [if_neg (by simp), if_neg htest] at hb
    split at hb <;> rename_i hrun1
    · exact absurd hb (by simp)
    · rename_i r1
      have hch1 := runCheck_posts_channel tz now adminId excl "退勤(起動テスト)" chOut coOut
        (-1) testCh oOut tsOut r1 hrun1
      rw [jsOr_of_ne testCh chOut htest] at hch1
      split at hb
      · rw [← Option.some.inj hb]
        exact hch1
      · split at hb
        · rw [← Option.some.inj hb]
          exact hch1
        · split at hb <;> rename_i hrun2
          · exact absurd hb (by simp)
          · rename_i r2
            have hch2 := runCheck_posts_channel tz now adminId excl "出勤(起動テスト)" chIn coIn
              0 testCh oIn tsIn r2 hrun2
            rw [jsOr_of_ne testCh chIn htest] at hch2
            rw [← Option.some.inj hb]
            intro p hp
            rcases List.mem_append.mp hp with hp1 | hp2
            · exact hch1 p hp1
            · exact hch2 p hp2

/-- C9 witness: without a test channel the boot block skips; with one, a
concrete boot run posts only to the test channel. -/
theorem bootBlock_spec_witness :
    bootBlock true "" 0 0 "" [] "CO" "12:00" "" "12:00"
      ⟨.ok [], .ok [], .ok []⟩ ⟨.ok [], .ok [], .ok []⟩ "1" "2" = some ⟨true, []⟩
    ∧ ∃ out, bootBlock true "T" 0 0 "" [] "CO" "12:00" "" "12:00"
        ⟨.ok [], .ok [], .ok []⟩ ⟨.ok [], .ok [], .ok []⟩ "1" "2" = some out
      ∧ ∀ p ∈ out.posts, p.channel = "T" := by
  constructor
  · exact bootBlock_spec.1 0 0 "" [] "CO" "12:00" "" "12:00"
      ⟨.ok [], .ok [], .ok []⟩ ⟨.ok [], .ok [], .ok []⟩ "1" "2"
  · rcases hb : bootBlock true "T" 0 0 "" [] "CO" "12:00" "" "12:00"
        ⟨.ok [], .ok [], .ok []⟩ ⟨.ok [], .ok [], .ok []⟩ "1" "2" with _ | out
    · exact absurd hb (by decide)
    · exact ⟨out, rfl, bootBlock_spec.2 "T" 0 0 "" [] "CO" "12:00" "" "12:00"
        ⟨.ok [], .ok [], .ok []⟩ ⟨.ok [], .ok [], .ok []⟩ "1" "2" out (by decide) hb⟩

end DailyReportWatcher
